import Mathlib

/-!
Verification development for the payflow repository: a shallow embedding of
`PayrollVariableGraph` from `payroll_variable_agent.py` (variable registry,
calculation-node graph backed by a `networkx.DiGraph`, execution, and the
dependency analysis of `to_llm_readable_text`) and of `AgentMonitor` from
`app/monitoring.py` (bounded event log, session map, subscriber fan-out).
Python dicts are modelled as insertion-ordered association lists whose keys
are unique (`(akeys m).Nodup`), which every Python dict guarantees; timestamps
(`datetime.now()`) are abstract `Nat` values passed in explicitly.
-/

namespace Payflow

universe u v

/-- Python dict lookup `m.get(k)` / `k in m`: first (= only, under the nodup
invariant) binding for `k`. -/
def alookup {κ : Type u} {α : Type v} [DecidableEq κ] : List (κ × α) → κ → Option α
  | [], _ => none
  | kv :: rest, k => if kv.1 = k then some kv.2 else alookup rest k

/-- Python dict assignment `m[k] = v`: replaces the binding in place if the key
is present (keeping its position), otherwise appends a new binding. -/
def ainsert {κ : Type u} {α : Type v} [DecidableEq κ] : List (κ × α) → κ → α → List (κ × α)
  | [], k, v => [(k, v)]
  | kv :: rest, k, v => if kv.1 = k then (k, v) :: rest else kv :: ainsert rest k v

/-- Python dict deletion `del m[k]`: removes the binding(s) for `k`
(exactly one under the nodup invariant). -/
def aerase {κ : Type u} {α : Type v} [DecidableEq κ] : List (κ × α) → κ → List (κ × α)
  | [], _ => []
  | kv :: rest, k => if kv.1 = k then aerase rest k else kv :: aerase rest k

/-- The keys of an association list, in insertion order (`list(m.keys())`). -/
def akeys {κ : Type u} {α : Type v} (m : List (κ × α)) : List κ := m.map (·.1)

/-! ## The variable registry (`PayrollVariableGraph._variable_registry`) -/
/-- The metadata record built by `PayrollVariableGraph.add_variable`.
`created_at` (a `datetime.now().isoformat()` string) is an abstract `Nat`. -/
structure VariableInfo where
  name : String
  varType : String
  description : String
  dataType : String
  legalReference : Option String
  calculationFormula : Option String
  dependsOn : List String
  createdAt : Nat
deriving DecidableEq, Repr

/-- Models `self._variable_registry`: the two dicts
`'input_variables'` and `'intermediate_variables'`. -/
structure VariableRegistry where
  inputVariables : List (String × VariableInfo)
  intermediateVariables : List (String × VariableInfo)
deriving DecidableEq, Repr

def VariableRegistry.empty : VariableRegistry := ⟨[], []⟩

/-- Models `PayrollVariableGraph.add_variable`: builds the `variable_info` dict and
stores it under `var_name` in the registry selected by `var_type`
(`'input'` goes to the input dict, anything else to the intermediate dict). -/
def add_variable (r : VariableRegistry) (varName varType description dataType : String)
    (legalReference calculationFormula : Option String) (dependsOn : List String)
    (now : Nat) : VariableRegistry :=
  let variableInfo : VariableInfo :=
    { name := varName, varType := varType, description := description,
      dataType := dataType, legalReference := legalReference,
      calculationFormula := calculationFormula, dependsOn := dependsOn,
      createdAt := now }
  if varType = "input" then
    { r with inputVariables := ainsert r.inputVariables varName variableInfo }
  else
    { r with intermediateVariables := ainsert r.intermediateVariables varName variableInfo }

/-- Models `PayrollVariableGraph.remove_variable`: deletes `var_name` from whichever
of the two dicts contain it; returns `True` iff it was found in at least one. -/
def remove_variable (r : VariableRegistry) (varName : String) : Bool × VariableRegistry :=
  let hasInput := (alookup r.inputVariables varName).isSome
  let hasIntermediate := (alookup r.intermediateVariables varName).isSome
  (hasInput || hasIntermediate,
   { inputVariables :=
       if hasInput then aerase r.inputVariables varName else r.inputVariables,
     intermediateVariables :=
       if hasIntermediate then aerase r.intermediateVariables varName
       else r.intermediateVariables })

/-- The total number of registry entries stored under a given name
(counting both the input and the intermediate dict). -/
def registryEntryCount (r : VariableRegistry) (varName : String) : Nat :=
  (akeys r.inputVariables).count varName + (akeys r.intermediateVariables).count varName

/-! ## The calculation graph (`PayrollVariableGraph.graph`, a `networkx.DiGraph`,
and `PayrollVariableGraph._function_registry`) -/
/-- Values flowing through calculation functions (abstract). -/
abbrev Value := Int

/-- A bound calculation function: its declared parameter names
(`inspect.signature(func).parameters`) and its behaviour on keyword
arguments (a kwargs dict). -/
structure BoundFunction where
  params : List String
  impl : List (String × Value) → Value

/-- The node attribute dict built by `add_calculation_node`
(`function_signature`/`function_doc` string renderings are abstracted away;
`created_at` is an abstract `Nat`). -/
structure NodeAttrs where
  description : String
  functionName : String
  outputVariable : Option String
  inputVariables : List String
  legalReference : Option String
  nodeType : String
  createdAt : Nat
deriving DecidableEq, Repr

/-- The edge attribute dict built by `connect_calculations`. -/
structure EdgeAttrs where
  variablePassed : Option String
  createdAt : Nat
deriving DecidableEq, Repr

/-- The mutable state of a `PayrollVariableGraph` relevant to the calculation
graph: the `networkx.DiGraph` (node dict in insertion order, edge dict keyed
by the ordered `(from, to)` pair) and `_function_registry`. -/
structure PayrollGraph where
  nodes : List (String × NodeAttrs)
  edges : List ((String × String) × EdgeAttrs)
  functionRegistry : List (String × BoundFunction)

/-- Node identifiers currently in the graph, in insertion order. -/
def nodeKeys (g : PayrollGraph) : List String := akeys g.nodes

/-- The ordered `(from, to)` pairs of the current edges. -/
def edgePairs (g : PayrollGraph) : List (String × String) := akeys g.edges

/-- Errors raised by the graph engine (as `ValueError`s in the source). -/
inductive GraphError where
  | unknownNode (nodeId : String)
  | missingArguments (nodeId : String) (missing : List String)
  | bothNodesMustExist
deriving DecidableEq, Repr

/-- Models `PayrollVariableGraph.add_calculation_node`: stores the function in
`_function_registry` and the node with its attribute dict in the graph
(`DiGraph.add_node` upserts). -/
def add_calculation_node (g : PayrollGraph) (nodeId : String) (function : BoundFunction)
    (attrs : NodeAttrs) : PayrollGraph :=
  { g with
    functionRegistry := ainsert g.functionRegistry nodeId function,
    nodes := ainsert g.nodes nodeId attrs }

/-- Models `PayrollVariableGraph.connect_calculations`: raises a `ValueError` unless
both endpoints already exist, then `DiGraph.add_edge` upserts the edge keyed
by the ordered pair `(from_node, to_node)`. -/
def connect_calculations (g : PayrollGraph) (fromNode toNode : String)
    (attrs : EdgeAttrs) : Except GraphError PayrollGraph :=
  if (alookup g.nodes fromNode).isNone || (alookup g.nodes toNode).isNone then
    .error .bothNodesMustExist
  else
    .ok { g with edges := ainsert g.edges (fromNode, toNode) attrs }

/-- Models `PayrollVariableGraph.execute_calculation`: `UnknownNode` when the node has
no registered function; `MissingArguments` listing the declared
`input_variables` absent from the supplied values; otherwise calls the
function on the supplied values filtered down to its parameter names.
(The `self.graph.nodes[node_id]` attribute access cannot fail because
`add_calculation_node` is the only writer of both maps.) -/
def execute_calculation (g : PayrollGraph) (nodeId : String)
    (variableValues : List (String × Value)) : Except GraphError Value :=
  match alookup g.functionRegistry nodeId with
  | none => .error (.unknownNode nodeId)
  | some func =>
    match alookup g.nodes nodeId with
    | none => .error (.unknownNode nodeId)
    | some nodeInfo =>
      let missingVars := nodeInfo.inputVariables.filter
        (fun v => (alookup variableValues v).isNone)
      if missingVars.isEmpty then
        let filteredArgs := variableValues.filter (fun kv => kv.1 ∈ func.params)
        .ok (func.impl filteredArgs)
      else
        .error (.missingArguments nodeId missingVars)

/-- Models `PayrollVariableGraph.remove_calculation_node`: `False` if the node is not
in the graph; otherwise `DiGraph.remove_node` (which also drops every edge
incident to the node) plus removal from `_function_registry`. -/
def remove_calculation_node (g : PayrollGraph) (nodeId : String) : Bool × PayrollGraph :=
  if (alookup g.nodes nodeId).isNone then
    (false, g)
  else
    (true,
     { nodes := aerase g.nodes nodeId,
       edges := g.edges.filter
         (fun e => ¬ (e.1.1 = nodeId ∨ e.1.2 = nodeId)),
       functionRegistry := aerase g.functionRegistry nodeId })

/-- Models `PayrollVariableGraph.remove_connection`: drops the edge if present. -/
def remove_connection (g : PayrollGraph) (fromNode toNode : String) : Bool × PayrollGraph :=
  if (alookup g.edges (fromNode, toNode)).isSome then
    (true, { g with edges := aerase g.edges (fromNode, toNode) })
  else
    (false, g)

/-! ## Topological sort (`nx.topological_sort`) and the dependency analysis
subsection of `to_llm_readable_text` (section 4D) -/
/-- The networkx exception classes relevant here.  In networkx,
`NetworkXUnfeasible` derives from `NetworkXAlgorithmError`, which derives from
`NetworkXException`; `NetworkXError` is a *sibling* of `NetworkXAlgorithmError`
under `NetworkXException`, so an `except nx.NetworkXError` clause does **not**
catch `NetworkXUnfeasible`. -/
inductive NxException where
  | networkXError
  | networkXUnfeasible
deriving DecidableEq, Repr

/-- A node of `remaining` has zero in-degree when no edge whose source is still
in `remaining` targets it (self-loops keep their node's in-degree positive). -/
def zeroInDegree (edges : List (String × String)) (remaining : List String)
    (v : String) : Bool :=
  decide (∀ e ∈ edges, e.2 = v → e.1 ∉ remaining)

/-- Kahn's algorithm as performed by `nx.topological_sort`: repeatedly emit a
zero-in-degree node among the remaining ones; if none is left to emit while
nodes remain, every remaining node sits on a cycle and `NetworkXUnfeasible`
is raised ("Graph contains a cycle or graph changed during iteration").
The loop is driven by a fuel counter that `nx_topological_sort` initialises
to the node count — an upper bound on the number of iterations, since each
iteration removes one node. -/
def topoAux (edges : List (String × String)) :
    Nat → List String → List String → Except NxException (List String)
  | 0, remaining, acc =>
    if remaining.isEmpty then .ok acc else .error .networkXUnfeasible
  | fuel + 1, remaining, acc =>
    match remaining.find? (zeroInDegree edges remaining) with
    | some v => topoAux edges fuel (remaining.erase v) (acc ++ [v])
    | none =>
      if remaining.isEmpty then .ok acc else .error .networkXUnfeasible

/-- Models `list(nx.topological_sort(self.graph))`. -/
def nx_topological_sort (g : PayrollGraph) : Except NxException (List String) :=
  topoAux (edgePairs g) (nodeKeys g).length (nodeKeys g) []

/-- Models `self.graph.in_degree(n)`. -/
def in_degree (g : PayrollGraph) (n : String) : Nat :=
  (edgePairs g).countP (fun e => e.2 = n)

/-- Models `self.graph.out_degree(n)`. -/
def out_degree (g : PayrollGraph) (n : String) : Nat :=
  (edgePairs g).countP (fun e => e.1 = n)

/-- Models `entry_points = [n for n in self.graph.nodes() if self.graph.in_degree(n) == 0]`. -/
def entry_points (g : PayrollGraph) : List String :=
  (nodeKeys g).filter (fun n => in_degree g n = 0)

/-- Models `exit_points = [n for n in self.graph.nodes() if self.graph.out_degree(n) == 0]`. -/
def exit_points (g : PayrollGraph) : List String :=
  (nodeKeys g).filter (fun n => out_degree g n = 0)

/-- What section 4D of `to_llm_readable_text` produces. -/
inductive AnalysisOutcome where
  | analysis (executionOrder entryPoints exitPoints : List String)
  | caughtErrorLine
deriving DecidableEq, Repr

/-- Models the `try`/`except nx.NetworkXError` block of section 4D
(`to_llm_readable_text`, lines 307–322): on success it renders the execution
order and the entry/exit points; a raised `NetworkXError` would be caught and
rendered as the "Erreur dans l'analyse" line; a raised `NetworkXUnfeasible`
matches no handler and propagates out of `to_llm_readable_text`. -/
def dependency_analysis (g : PayrollGraph) : Except NxException AnalysisOutcome :=
  match nx_topological_sort g with
  | .ok topoOrder => .ok (.analysis topoOrder (entry_points g) (exit_points g))
  | .error .networkXError => .ok .caughtErrorLine
  | .error .networkXUnfeasible => .error .networkXUnfeasible

/-- The edge relation of the graph store. -/
def edgeRel (g : PayrollGraph) (a b : String) : Prop := (a, b) ∈ edgePairs g

/-- The graph store contains a (directed) cycle. -/
def hasCycle (g : PayrollGraph) : Prop := ∃ v, Relation.TransGen (edgeRel g) v v

/-- Structural well-formedness maintained by every graph operation: node keys
are unique (a Python dict guarantee), edge keys are unique, and both endpoints
of every edge are nodes (enforced by `connect_calculations`, and nodes are
only removed together with their incident edges). -/
structure PayrollGraph.Wf (g : PayrollGraph) : Prop where
  nodesNodup : (nodeKeys g).Nodup
  edgesNodup : (edgePairs g).Nodup
  edgesValid : ∀ e ∈ edgePairs g, e.1 ∈ nodeKeys g ∧ e.2 ∈ nodeKeys g

/-! ## The monitor (`AgentMonitor` in `app/monitoring.py`) -/
/-- A structured monitoring event (the dicts appended by `_add_event`; the
`'type'` key is the `eventType` field, `timestamp` is an abstract `Nat`, and
the `'data'` payload is an abstract string dict). -/
structure MEvent where
  sessionId : String
  eventType : String
  agentType : Option String
  action : Option String
  message : String
  level : String
  timestamp : Nat
  payload : List (String × String)
deriving DecidableEq, Repr

/-- An entry of `AgentMonitor.active_sessions`. -/
structure SessionInfo where
  id : String
  description : String
  userId : Option String
  startedAt : Nat
  status : String
  eventsCount : Nat
  lastActivity : Nat
  endedAt : Option Nat
deriving DecidableEq, Repr

/-- A registered subscriber callback; invoking it either returns normally or
raises (modelled as `Except` with the exception text). `sid` identifies the
subscriber so that deliveries can be traced. -/
structure Subscriber where
  sid : Nat
  callback : MEvent → Except String Unit

/-- The `AgentMonitor` singleton state. -/
structure Monitor where
  events : List MEvent
  subscribers : List Subscriber
  activeSessions : List (String × SessionInfo)

/-- The capacity of `deque(maxlen=1000)`. -/
def monitorCapacity : Nat := 1000

/-- Models `self.events.append(event)` on a `deque(maxlen=1000)`: append, evicting
the oldest entry when the capacity is exceeded. -/
def append_event_bounded (log : List MEvent) (e : MEvent) : List MEvent :=
  let l := log ++ [e]
  l.drop (l.length - monitorCapacity)

/-- Appending a whole sequence of events, oldest first. -/
def append_events (log : List MEvent) (es : List MEvent) : List MEvent :=
  es.foldl append_event_bounded log

/-- The subscriber loop of `_add_event`: each callback is invoked with the new
event inside its own `try`/`except`, so a raising callback is recorded
(`logger.error(...)`) and the loop continues with the remaining subscribers.
The returned trace lists, in order, each invoked subscriber together with the
exception text that was caught for it (if any). -/
def notify_subscribers : List Subscriber → MEvent → List (Nat × Option String)
  | [], _ => []
  | s :: rest, e =>
    match s.callback e with
    | .ok _ => (s.sid, none) :: notify_subscribers rest e
    | .error msg => (s.sid, some msg) :: notify_subscribers rest e

/-- Models `AgentMonitor._add_event`: append to the bounded log, then notify every
subscriber.  Total — a raising subscriber never propagates to the caller. -/
def add_event (m : Monitor) (e : MEvent) : Monitor × List (Nat × Option String) :=
  ({ m with events := append_event_bounded m.events e },
   notify_subscribers m.subscribers e)

/-- The event dict built by `log_agent_action` (with the `data or` default). -/
def mk_agent_action_event (sessionId agentType action message level : String)
    (data : Option (List (String × String))) (now : Nat) : MEvent :=
  { sessionId := sessionId, eventType := "agent_action",
    agentType := some agentType, action := some action, message := message,
    level := level, timestamp := now, payload := data.getD [] }

/-- Models `AgentMonitor.log_agent_action`: build the event; under the lock, if
`session_id` is a known active session bump its `events_count` and refresh
`last_activity` (in-place dict mutation); then `_add_event`. -/
def log_agent_action (m : Monitor) (sessionId agentType action message level : String)
    (data : Option (List (String × String))) (now : Nat) :
    Monitor × List (Nat × Option String) :=
  let event := mk_agent_action_event sessionId agentType action message level data now
  let m₁ :=
    match alookup m.activeSessions sessionId with
    | some s =>
      let bumped := { s with eventsCount := s.eventsCount + 1, lastActivity := now }
      { m with activeSessions := ainsert m.activeSessions sessionId bumped }
    | none => m
  add_event m₁ event

/-- Python's `events[-limit:]` for a non-negative `limit`: the last `limit`
entries — except that `limit = 0` yields `events[0:]`, the whole list. -/
def last_slice (limit : Nat) (l : List MEvent) : List MEvent :=
  if limit = 0 then l else l.drop (l.length - limit)

/-- Models `AgentMonitor.get_recent_events`: snapshot the log, filter by
session and level, return `events[-limit:]`.  The guards `if session_id:` and
`if level:` are Python truthiness checks, so supplying the empty string (just
like supplying `None`) skips the corresponding filter. -/
def get_recent_events (m : Monitor) (limit : Nat) (sessionId : Option String)
    (level : Option String) : List MEvent :=
  let events := m.events
  let bySession :=
    match sessionId with
    | some sid =>
      if sid = "" then events else events.filter (fun e => e.sessionId = sid)
    | none => events
  let byLevel :=
    match level with
    | some lv =>
      if lv = "" then bySession else bySession.filter (fun e => e.level = lv)
    | none => bySession
  last_slice limit byLevel

/-! ## Supporting lemmas on the bounded log -/
/-- The suffix of the last `n` entries. -/
def keep_last {α : Type u} (n : Nat) (l : List α) : List α := l.drop (l.length - n)

/-- A concrete structured event used by the witnesses. -/
def mkSimpleEvent (sid : String) (i : Nat) : MEvent :=
  { sessionId := sid, eventType := "agent_action", agentType := none,
    action := none, message := "", level := "info", timestamp := i,
    payload := [] }

/-- A list of 1500 concrete events. -/
def witnessEvents : List MEvent := (List.range 1500).map (mkSimpleEvent "s")

/-! ## C7: `get_recent_events` filtered by session -/
/-- C7 counterexample state: a log holding one event tagged `"S"`. -/
def c7Monitor : Monitor :=
  { events := [mkSimpleEvent "S" 0], subscribers := [], activeSessions := [] }

/-- A log holding one event tagged with a session other than the queried one. -/
def c7MonitorOther : Monitor :=
  { events := [mkSimpleEvent "other" 0], subscribers := [], activeSessions := [] }

/-! ## C8: subscriber fan-out is exception-isolated -/
/-- The caught outcome of one callback invocation. -/
def caught : Except String Unit → Option String
  | .ok _ => none
  | .error msg => some msg

/-- A raising subscriber followed by a normal one: both are invoked, the
exception is caught, and the event is still appended. -/
def c8Raising : Subscriber := ⟨1, fun _ => .error "boom"⟩

def c8Normal : Subscriber := ⟨2, fun _ => .ok ()⟩

def c8Monitor : Monitor :=
  { events := [], subscribers := [c8Raising, c8Normal], activeSessions := [] }

def c9Session : SessionInfo :=
  { id := "s1", description := "demo", userId := none, startedAt := 0,
    status := "active", eventsCount := 3, lastActivity := 0, endedAt := none }

def c9Monitor : Monitor :=
  { events := [], subscribers := [], activeSessions := [("s1", c9Session)] }

/-! ## C4 / C10: `add_variable` upsert semantics across the two registries -/
/-- The registry dict selected by `var_type` in `add_variable`. -/
def kindMap (r : VariableRegistry) (varType : String) : List (String × VariableInfo) :=
  if varType = "input" then r.inputVariables else r.intermediateVariables

/-- The registry dict `add_variable` does *not* write for `var_type`. -/
def otherKindMap (r : VariableRegistry) (varType : String) : List (String × VariableInfo) :=
  if varType = "input" then r.intermediateVariables else r.inputVariables

/-- C4 counterexample state: `"x"` added as an input variable and then added
again under the same name as an intermediate variable. -/
def c4RegOnce : VariableRegistry :=
  add_variable VariableRegistry.empty "x" "input" "base salary" "float" none none [] 0

def c4RegTwice : VariableRegistry :=
  add_variable c4RegOnce "x" "intermediate" "computed" "float" none none [] 1

/-- The C10 scenario: the same name registered twice, first with kind `k₁`,
then with kind `k₂` (all other attributes per call). -/
def add_variable_twice (r : VariableRegistry) (n k₁ k₂ d₁ d₂ dt : String)
    (lr cf : Option String) (dep : List String) (t₁ t₂ : Nat) : VariableRegistry :=
  add_variable (add_variable r n k₁ d₁ dt lr cf dep t₁) n k₂ d₂ dt lr cf dep t₂

/-- A trivial bound function used to build concrete graphs. -/
def sampleFunction : BoundFunction :=
  { params := ["x"], impl := fun args => (alookup args "x").getD 0 }

/-- Concrete node attributes. -/
def sampleAttrs (ins : List String) : NodeAttrs :=
  { description := "calc", functionName := "f", outputVariable := none,
    inputVariables := ins, legalReference := none, nodeType := "calculation",
    createdAt := 0 }

def emptyGraph : PayrollGraph := ⟨[], [], []⟩

def c5Graph : PayrollGraph :=
  add_calculation_node
    (add_calculation_node emptyGraph "n1" sampleFunction (sampleAttrs ["x"]))
    "n2" sampleFunction (sampleAttrs ["x"])

def sampleEdge₁ : EdgeAttrs := { variablePassed := some "x", createdAt := 1 }

def sampleEdge₂ : EdgeAttrs := { variablePassed := some "y", createdAt := 2 }

/-- The claim scenario: node `n1` is bound to a function taking only `x`
and declares `input_variables = ["x"]`; node `n2` declares
`input_variables = ["x", "z"]`. -/
def c1Graph : PayrollGraph :=
  add_calculation_node
    (add_calculation_node emptyGraph "n1" sampleFunction (sampleAttrs ["x"]))
    "n2" sampleFunction (sampleAttrs ["x", "z"])

/-! ## Topological sort: correctness of the Kahn loop -/
/-- Position of the first occurrence of an element in a list. -/
def posIn : List String → String → Nat
  | [], _ => 0
  | x :: xs, a => if x = a then 0 else posIn xs a + 1

/-- A predecessor-choice function on a stuck set. -/
def stuckPred (E : List (String × String)) (S : List String) (v : String) : String :=
  match S.find? (fun u => decide ((u, v) ∈ E)) with
  | some u => u
  | none => v

/-! ## C3: cycle handling of the dependency analysis (section 4D) -/
/-- The state reached by registering three calculation nodes `A`, `B`, `C`
and connecting `A→B`, `B→C`, `C→A` (the claim's failing input). -/
def c3CycleGraph : PayrollGraph :=
  { nodes := [("A", sampleAttrs []), ("B", sampleAttrs []), ("C", sampleAttrs [])],
    edges := [(("A", "B"), sampleEdge₁), (("B", "C"), sampleEdge₁),
              (("C", "A"), sampleEdge₁)],
    functionRegistry := [("A", sampleFunction), ("B", sampleFunction),
                         ("C", sampleFunction)] }

/-- The state with nodes `n1`, `n2` and one edge `n1→n2`. -/
def c6Graph : PayrollGraph :=
  { nodes := [("n1", sampleAttrs ["x"]), ("n2", sampleAttrs ["x"])],
    edges := [(("n1", "n2"), sampleEdge₁)],
    functionRegistry := [("n1", sampleFunction), ("n2", sampleFunction)] }

section AssocLemmas

variable {κ : Type u} {α : Type v}

@[simp] theorem akeys_nil : akeys ([] : List (κ × α)) = [] := rfl

@[simp] theorem akeys_cons (kv : κ × α) (rest : List (κ × α)) :
    akeys (kv :: rest) = kv.1 :: akeys rest := rfl

variable [DecidableEq κ]

theorem alookup_ainsert_self (m : List (κ × α)) (k : κ) (v : α) :
    alookup (ainsert m k v) k = some v := by
  induction m with
  | nil => simp [ainsert, alookup]
  | cons kv rest ih =>
    by_cases h : kv.1 = k
    · simp [ainsert, h, alookup]
    · simp [ainsert, h, alookup, ih]

theorem alookup_ainsert_ne (m : List (κ × α)) (k k' : κ) (v : α) (h : k' ≠ k) :
    alookup (ainsert m k v) k' = alookup m k' := by
  have hne : ¬ k = k' := fun hc => h hc.symm
  induction m with
  | nil => simp [ainsert, alookup, hne]
  | cons kv rest ih =>
    by_cases hk : kv.1 = k
    · subst hk
      simp [ainsert, alookup, hne]
    · by_cases hk' : kv.1 = k'
      · simp [ainsert, hk, alookup, hk', h]
      · simp [ainsert, hk, alookup, hk', ih]

theorem alookup_aerase_self (m : List (κ × α)) (k : κ) :
    alookup (aerase m k) k = none := by
  induction m with
  | nil => simp [aerase, alookup]
  | cons kv rest ih =>
    by_cases h : kv.1 = k
    · simp [aerase, h, ih]
    · simp [aerase, h, alookup, ih]

theorem alookup_aerase_ne (m : List (κ × α)) (k k' : κ) (h : k' ≠ k) :
    alookup (aerase m k) k' = alookup m k' := by
  induction m with
  | nil => simp [aerase]
  | cons kv rest ih =>
    by_cases hk : kv.1 = k
    · subst hk
      have hne : ¬ kv.1 = k' := fun hc => h hc.symm
      simp [aerase, alookup, hne, ih]
    · simp [aerase, hk, alookup, ih]

theorem alookup_append (m₁ m₂ : List (κ × α)) (k : κ) :
    alookup (m₁ ++ m₂) k =
      match alookup m₁ k with
      | some v => some v
      | none => alookup m₂ k := by
  induction m₁ with
  | nil => simp [alookup]
  | cons kv rest ih =>
    by_cases h : kv.1 = k
    · simp [alookup, h]
    · simp [alookup, h, ih]

theorem alookup_isSome_iff_mem_akeys (m : List (κ × α)) (k : κ) :
    (alookup m k).isSome ↔ k ∈ akeys m := by
  induction m with
  | nil => simp [alookup]
  | cons kv rest ih =>
    by_cases h : kv.1 = k
    · simp [alookup, h]
    · have hne : ¬ k = kv.1 := fun hc => h hc.symm
      simp [alookup, h, hne, ih]

theorem alookup_eq_none_iff_not_mem_akeys (m : List (κ × α)) (k : κ) :
    alookup m k = none ↔ k ∉ akeys m := by
  rw [← alookup_isSome_iff_mem_akeys]
  cases alookup m k <;> simp

theorem akeys_ainsert_of_mem (m : List (κ × α)) (k : κ) (v : α) (h : k ∈ akeys m) :
    akeys (ainsert m k v) = akeys m := by
  induction m with
  | nil => simp at h
  | cons kv rest ih =>
    by_cases hk : kv.1 = k
    · simp [ainsert, hk]
    · have hmem : k ∈ akeys rest := by
        rcases (by simpa using h) with h₁ | h₁
        · exact absurd h₁.symm hk
        · exact h₁
      simp [ainsert, hk, ih hmem]

theorem akeys_ainsert_of_not_mem (m : List (κ × α)) (k : κ) (v : α) (h : k ∉ akeys m) :
    akeys (ainsert m k v) = akeys m ++ [k] := by
  induction m with
  | nil => simp [ainsert]
  | cons kv rest ih =>
    have hk : kv.1 ≠ k := by
      intro hc; exact h (by simp [hc])
    have hrest : k ∉ akeys rest := by
      intro hc; exact h (by simp [hc])
    simp [ainsert, hk, ih hrest]

theorem akeys_ainsert_nodup (m : List (κ × α)) (k : κ) (v : α)
    (h : (akeys m).Nodup) : (akeys (ainsert m k v)).Nodup := by
  by_cases hm : k ∈ akeys m
  · rw [akeys_ainsert_of_mem m k v hm]; exact h
  · rw [akeys_ainsert_of_not_mem m k v hm]
    simpa [List.nodup_append] using ⟨h, hm⟩

theorem mem_akeys_ainsert_self (m : List (κ × α)) (k : κ) (v : α) :
    k ∈ akeys (ainsert m k v) := by
  rw [← alookup_isSome_iff_mem_akeys, alookup_ainsert_self]
  rfl

theorem count_akeys_eq_one (m : List (κ × α)) (k : κ)
    (hnd : (akeys m).Nodup) (hmem : k ∈ akeys m) :
    (akeys m).count k = 1 := by
  have hle : (akeys m).count k ≤ 1 := List.nodup_iff_count_le_one.mp hnd k
  have hge : 0 < (akeys m).count k := List.count_pos_iff.mpr hmem
  omega

theorem count_akeys_le_one (m : List (κ × α)) (k : κ)
    (hnd : (akeys m).Nodup) : (akeys m).count k ≤ 1 :=
  List.nodup_iff_count_le_one.mp hnd k

theorem length_filter_eq_le_one {β : Type u} [DecidableEq β] (l : List β) (k : β)
    (h : l.Nodup) : (l.filter (fun x => x = k)).length ≤ 1 := by
  induction l with
  | nil => simp
  | cons a l ih =>
    have hnotmem : a ∉ l := (List.nodup_cons.mp h).1
    have hnd : l.Nodup := (List.nodup_cons.mp h).2
    by_cases ha : a = k
    · subst ha
      have hnil : l.filter (fun x => x = a) = [] := by
        rw [List.filter_eq_nil_iff]
        intro b hb
        simp only [decide_eq_true_eq]
        intro hba
        exact hnotmem (hba ▸ hb)
      simp [hnil]
    · simpa [ha] using ih hnd

theorem length_filter_eq_eq_one {β : Type u} [DecidableEq β] (l : List β) (k : β)
    (h : l.Nodup) (hm : k ∈ l) : (l.filter (fun x => x = k)).length = 1 := by
  have hle := length_filter_eq_le_one l k h
  have hmem : k ∈ l.filter (fun x => x = k) := by
    rw [List.mem_filter]
    exact ⟨hm, by simp⟩
  have hpos : 0 < (l.filter (fun x => x = k)).length :=
    List.length_pos.mpr (List.ne_nil_of_mem hmem)
  omega

end AssocLemmas

theorem append_event_bounded_eq_keep_last (log : List MEvent) (e : MEvent) :
    append_event_bounded log e = keep_last monitorCapacity (log ++ [e]) := rfl

theorem length_keep_last {α : Type u} (n : Nat) (l : List α) :
    (keep_last n l).length = min n l.length := by
  simp only [keep_last, List.length_drop]
  omega

theorem keep_last_of_le {α : Type u} (n : Nat) (l : List α) (h : l.length ≤ n) :
    keep_last n l = l := by
  simp only [keep_last, Nat.sub_eq_zero_of_le h, List.drop_zero]

theorem keep_last_append_keep_last {α : Type u} (n : Nat) (x m : List α) :
    keep_last n (keep_last n x ++ m) = keep_last n (x ++ m) := by
  have hk : x.length - n ≤ x.length := Nat.sub_le _ _
  have h₁ : keep_last n x ++ m = (x ++ m).drop (x.length - n) := by
    rw [List.drop_append_eq_append_drop, Nat.sub_eq_zero_of_le hk, List.drop_zero]
    rfl
  rw [h₁]
  simp only [keep_last, List.drop_drop, List.length_drop, List.length_append]
  congr 1
  omega

theorem append_events_eq_keep_last (es : List MEvent) :
    ∀ log : List MEvent, log.length ≤ monitorCapacity →
      append_events log es = keep_last monitorCapacity (log ++ es) := by
  induction es with
  | nil =>
    intro log hlen
    simp only [append_events, List.foldl_nil, List.append_nil]
    exact (keep_last_of_le _ _ hlen).symm
  | cons e rest ih =>
    intro log hlen
    have hstep : (append_event_bounded log e).length ≤ monitorCapacity := by
      rw [append_event_bounded_eq_keep_last, length_keep_last]
      omega
    have h₁ : append_events log (e :: rest) =
        append_events (append_event_bounded log e) rest := by
      simp only [append_events, List.foldl_cons]
    rw [h₁, ih _ hstep, append_event_bounded_eq_keep_last,
      keep_last_append_keep_last]
    simp

/-! ## C2: the bounded event log (capacity 1000, FIFO eviction) -/
/-- C2.  Starting from any log within capacity (in particular the Monitor's
initially empty log), appending any sequence of events never leaves more than
`monitorCapacity = 1000` events; and appending 1500 events to the empty log
leaves exactly the most recent 1000 of them, in append order (the oldest 500
evicted first). -/
theorem monitor_log_bounded_fifo (log es : List MEvent)
    (hlen : log.length ≤ monitorCapacity) :
    (append_events log es).length ≤ monitorCapacity ∧
      (log = [] → es.length = 1500 → append_events log es = es.drop 500) := by
  constructor
  · rw [append_events_eq_keep_last es log hlen, length_keep_last]
    omega
  · intro hnil h1500
    subst hnil
    rw [append_events_eq_keep_last es [] (by simp)]
    simp only [List.nil_append, keep_last, h1500]
    rfl

theorem monitor_log_bounded_fifo_witness :
    ([] : List MEvent).length ≤ monitorCapacity ∧
      witnessEvents.length = 1500 ∧
      append_events [] witnessEvents = witnessEvents.drop 500 :=
  ⟨by simp [monitorCapacity],
   by simp [witnessEvents],
   (monitor_log_bounded_fifo [] witnessEvents (by simp)).2 rfl
     (by simp [witnessEvents])⟩

/-- C7, as stated, is false in two ways.  At `limit = 0`, Python's
`events[-limit:]` is `events[0:]`, so the whole filtered list is returned and
its length exceeds the requested limit.  And at `S = ""`, the truthiness guard
`if session_id:` skips the session filter entirely, so events tagged with
other sessions are returned. -/
theorem get_recent_events_cex :
    ¬ ((get_recent_events c7Monitor 0 (some "S") none).length ≤ 0) ∧
      ¬ (∀ e ∈ get_recent_events c7MonitorOther 5 (some "") none,
          e.sessionId = "") := by
  decide

/-- C7, amended to positive limits and nonempty session identifiers.  For
every log state, every `limit ≥ 1` and every session id `S ≠ ""` (an empty id
is falsy, so the code would skip the filter): the result contains only events
tagged with that session, is the last-`limit` slice of the session-filtered
log (hence ordered as in the log, most recent last), and has length at most
`limit`. -/
theorem get_recent_events_session_spec (m : Monitor) (limit : Nat) (sid : String)
    (hpos : 0 < limit) (hsid : sid ≠ "") :
    (∀ e ∈ get_recent_events m limit (some sid) none, e.sessionId = sid) ∧
      (get_recent_events m limit (some sid) none).length ≤ limit ∧
      get_recent_events m limit (some sid) none =
        keep_last limit (m.events.filter (fun e => e.sessionId = sid)) ∧
      get_recent_events m limit (some sid) none <:+
        m.events.filter (fun e => e.sessionId = sid) := by
  have hne : limit ≠ 0 := Nat.pos_iff_ne_zero.mp hpos
  have heq : get_recent_events m limit (some sid) none =
      keep_last limit (m.events.filter (fun e => e.sessionId = sid)) := by
    simp [get_recent_events, last_slice, hne, hsid, keep_last]
  refine ⟨?_, ?_, heq, ?_⟩
  · intro e he
    rw [heq] at he
    have hmem : e ∈ m.events.filter (fun e => e.sessionId = sid) :=
      List.mem_of_mem_drop he
    simpa using (List.mem_filter.mp hmem).2
  · rw [heq, length_keep_last]
    omega
  · rw [heq]
    exact List.drop_suffix _ _

theorem get_recent_events_session_spec_witness :
    (0 < 5 ∧ "S" ≠ "") ∧
      (∀ e ∈ get_recent_events c7Monitor 5 (some "S") none, e.sessionId = "S") ∧
      (get_recent_events c7Monitor 5 (some "S") none).length ≤ 5 :=
  ⟨⟨by decide, by decide⟩,
   (get_recent_events_session_spec c7Monitor 5 "S" (by decide) (by decide)).1,
   (get_recent_events_session_spec c7Monitor 5 "S" (by decide) (by decide)).2.1⟩

theorem notify_subscribers_eq_map (subs : List Subscriber) (e : MEvent) :
    notify_subscribers subs e = subs.map (fun s => (s.sid, caught (s.callback e))) := by
  induction subs with
  | nil => rfl
  | cons s rest ih =>
    cases hc : s.callback e <;> simp [notify_subscribers, hc, caught, ih]

/-- C8.  `_add_event` appends the event to the bounded log unconditionally and
invokes every registered subscriber callback with that event, in registration
order; a callback that raises has its exception caught (recorded in the trace)
and neither prevents the remaining callbacks from being invoked nor propagates
to the caller (`add_event` is total and touches nothing else of the state). -/
theorem add_event_fanout_isolated (m : Monitor) (e : MEvent) :
    (add_event m e).1.events = append_event_bounded m.events e ∧
      (add_event m e).1.subscribers = m.subscribers ∧
      (add_event m e).1.activeSessions = m.activeSessions ∧
      (add_event m e).2 = m.subscribers.map (fun s => (s.sid, caught (s.callback e))) ∧
      (add_event m e).2.map Prod.fst = m.subscribers.map Subscriber.sid := by
  have h₂ : (add_event m e).2 = notify_subscribers m.subscribers e := by
    simp only [add_event]
  refine ⟨by simp only [add_event], by simp only [add_event],
    by simp only [add_event], ?_, ?_⟩
  · rw [h₂, notify_subscribers_eq_map]
  · rw [h₂, notify_subscribers_eq_map, List.map_map]
    simp [Function.comp]

theorem add_event_fanout_isolated_witness :
    (add_event c8Monitor (mkSimpleEvent "s" 0)).2.map Prod.fst =
      [c8Raising.sid, c8Normal.sid] ∧
      (add_event c8Monitor (mkSimpleEvent "s" 0)).1.events = [mkSimpleEvent "s" 0] :=
  ⟨(add_event_fanout_isolated c8Monitor (mkSimpleEvent "s" 0)).2.2.2.2,
   (add_event_fanout_isolated c8Monitor (mkSimpleEvent "s" 0)).1⟩

/-! ## C9: `log_agent_action` -/
/-- C9.  `log_agent_action` appends exactly one structured event to the
bounded log; when the session id is a known active session, that session's
`events_count` is incremented by one and its `last_activity` refreshed (its
other fields untouched, other sessions untouched); for an unknown session id
the session map is left entirely unchanged while the event is still logged. -/
theorem log_agent_action_spec (m : Monitor) (sid aty act msg lvl : String)
    (data : Option (List (String × String))) (now : Nat) :
    (log_agent_action m sid aty act msg lvl data now).1.events =
        append_event_bounded m.events (mk_agent_action_event sid aty act msg lvl data now) ∧
      (∀ s, alookup m.activeSessions sid = some s →
        alookup (log_agent_action m sid aty act msg lvl data now).1.activeSessions sid =
          some { s with eventsCount := s.eventsCount + 1, lastActivity := now } ∧
        ∀ sid₂, sid₂ ≠ sid →
          alookup (log_agent_action m sid aty act msg lvl data now).1.activeSessions sid₂ =
            alookup m.activeSessions sid₂) ∧
      (alookup m.activeSessions sid = none →
        (log_agent_action m sid aty act msg lvl data now).1.activeSessions =
          m.activeSessions) := by
  refine ⟨?_, ?_, ?_⟩
  · cases h : alookup m.activeSessions sid <;>
      simp [log_agent_action, h, add_event]
  · intro s hs
    constructor
    · simp [log_agent_action, hs, add_event, alookup_ainsert_self]
    · intro sid₂ hne
      simp [log_agent_action, hs, add_event, alookup_ainsert_ne _ _ _ _ hne]
  · intro hnone
    simp [log_agent_action, hnone, add_event]

theorem log_agent_action_spec_witness :
    alookup c9Monitor.activeSessions "s1" = some c9Session ∧
      alookup (log_agent_action c9Monitor "s1" "payroll_agent" "variable_creation"
          "msg" "info" none 7).1.activeSessions "s1" =
        some { c9Session with eventsCount := 4, lastActivity := 7 } := by
  refine ⟨rfl, ?_⟩
  have h := ((log_agent_action_spec c9Monitor "s1" "payroll_agent" "variable_creation"
    "msg" "info" none 7).2.1 c9Session rfl).1
  simpa [c9Session] using h

/-- C4, as stated (quantifying over *any* re-add of an existing name), is
false: re-adding `"x"` with a different kind leaves the registry with two
entries for `"x"` — one per kind dict — and the original input entry is not
overwritten. -/
theorem add_variable_cross_kind_cex :
    registryEntryCount c4RegTwice "x" = 2 ∧
      ¬ (registryEntryCount c4RegTwice "x" = 1) ∧
      alookup c4RegTwice.inputVariables "x" = alookup c4RegOnce.inputVariables "x" := by
  refine ⟨by decide, by decide, by decide⟩

/-- C4, amended to re-adding a name with the *same* kind (which is what both
dict assignments in `add_variable` actually upsert).  Re-adding never fails
(`add_variable` is total) and overwrites silently: afterwards the kind's dict
holds exactly one entry for that name, carrying exactly the newly supplied
attributes, and the other kind's dict is untouched. -/
theorem add_variable_same_kind_upsert (r : VariableRegistry)
    (varName varType description dataType : String)
    (legalReference calculationFormula : Option String) (dependsOn : List String)
    (now : Nat)
    (hnd : (akeys (kindMap r varType)).Nodup)
    (hmem : varName ∈ akeys (kindMap r varType)) :
    alookup (kindMap (add_variable r varName varType description dataType
        legalReference calculationFormula dependsOn now) varType) varName =
      some { name := varName, varType := varType, description := description,
             dataType := dataType, legalReference := legalReference,
             calculationFormula := calculationFormula, dependsOn := dependsOn,
             createdAt := now } ∧
      (akeys (kindMap (add_variable r varName varType description dataType
        legalReference calculationFormula dependsOn now) varType)).count varName = 1 ∧
      otherKindMap (add_variable r varName varType description dataType
        legalReference calculationFormula dependsOn now) varType =
        otherKindMap r varType := by
  by_cases ht : varType = "input"
  · subst ht
    have hmem₂ : varName ∈ akeys r.inputVariables := by simpa [kindMap] using hmem
    have hnd₂ : (akeys r.inputVariables).Nodup := by simpa [kindMap] using hnd
    refine ⟨?_, ?_, ?_⟩
    · simp [add_variable, kindMap, alookup_ainsert_self]
    · have hkeys :
          akeys (ainsert r.inputVariables varName
            { name := varName, varType := "input", description := description,
              dataType := dataType, legalReference := legalReference,
              calculationFormula := calculationFormula, dependsOn := dependsOn,
              createdAt := now }) = akeys r.inputVariables :=
        akeys_ainsert_of_mem _ _ _ hmem₂
      simpa [add_variable, kindMap, hkeys] using
        List.count_eq_one_of_mem hnd₂ hmem₂
    · simp [add_variable, otherKindMap]
  · have hmem₂ : varName ∈ akeys r.intermediateVariables := by
      simpa [kindMap, ht] using hmem
    have hnd₂ : (akeys r.intermediateVariables).Nodup := by
      simpa [kindMap, ht] using hnd
    refine ⟨?_, ?_, ?_⟩
    · simp [add_variable, kindMap, ht, alookup_ainsert_self]
    · have hkeys :
          akeys (ainsert r.intermediateVariables varName
            { name := varName, varType := varType, description := description,
              dataType := dataType, legalReference := legalReference,
              calculationFormula := calculationFormula, dependsOn := dependsOn,
              createdAt := now }) = akeys r.intermediateVariables :=
        akeys_ainsert_of_mem _ _ _ hmem₂
      simpa [add_variable, kindMap, ht, hkeys] using
        List.count_eq_one_of_mem hnd₂ hmem₂
    · simp [add_variable, otherKindMap, ht]

theorem add_variable_same_kind_upsert_witness :
    (akeys (kindMap c4RegOnce "input")).Nodup ∧
      "x" ∈ akeys (kindMap c4RegOnce "input") ∧
      (akeys (kindMap (add_variable c4RegOnce "x" "input" "updated" "int"
        none none [] 9) "input")).count "x" = 1 :=
  ⟨by decide, by decide,
   (add_variable_same_kind_upsert c4RegOnce "x" "input" "updated" "int"
     none none [] 9 (by decide) (by decide)).2.1⟩

/-- C10.  Adding a name as `input` and then again as `intermediate` (or vice
versa) leaves the name present in *both* registry dicts at once — the entry
written by the first call survives unmodified — and a single
`remove_variable` call then returns `True` and deletes the name from both
dicts. -/
theorem add_variable_both_kinds_remove_variable (r : VariableRegistry)
    (n d₁ d₂ dt : String) (lr cf : Option String) (dep : List String) (t₁ t₂ : Nat) :
    (alookup (add_variable_twice r n "input" "intermediate" d₁ d₂ dt lr cf dep t₁ t₂).inputVariables n =
        some { name := n, varType := "input", description := d₁, dataType := dt,
               legalReference := lr, calculationFormula := cf, dependsOn := dep,
               createdAt := t₁ } ∧
      alookup (add_variable_twice r n "input" "intermediate" d₁ d₂ dt lr cf dep t₁ t₂).intermediateVariables n =
        some { name := n, varType := "intermediate", description := d₂, dataType := dt,
               legalReference := lr, calculationFormula := cf, dependsOn := dep,
               createdAt := t₂ } ∧
      (remove_variable (add_variable_twice r n "input" "intermediate" d₁ d₂ dt lr cf dep t₁ t₂) n).1 = true ∧
      alookup (remove_variable (add_variable_twice r n "input" "intermediate" d₁ d₂ dt lr cf dep t₁ t₂) n).2.inputVariables n = none ∧
      alookup (remove_variable (add_variable_twice r n "input" "intermediate" d₁ d₂ dt lr cf dep t₁ t₂) n).2.intermediateVariables n = none) ∧
    (alookup (add_variable_twice r n "intermediate" "input" d₁ d₂ dt lr cf dep t₁ t₂).intermediateVariables n =
        some { name := n, varType := "intermediate", description := d₁, dataType := dt,
               legalReference := lr, calculationFormula := cf, dependsOn := dep,
               createdAt := t₁ } ∧
      alookup (add_variable_twice r n "intermediate" "input" d₁ d₂ dt lr cf dep t₁ t₂).inputVariables n =
        some { name := n, varType := "input", description := d₂, dataType := dt,
               legalReference := lr, calculationFormula := cf, dependsOn := dep,
               createdAt := t₂ } ∧
      (remove_variable (add_variable_twice r n "intermediate" "input" d₁ d₂ dt lr cf dep t₁ t₂) n).1 = true ∧
      alookup (remove_variable (add_variable_twice r n "intermediate" "input" d₁ d₂ dt lr cf dep t₁ t₂) n).2.inputVariables n = none ∧
      alookup (remove_variable (add_variable_twice r n "intermediate" "input" d₁ d₂ dt lr cf dep t₁ t₂) n).2.intermediateVariables n = none) := by
  constructor
  · refine ⟨?_, ?_, ?_, ?_, ?_⟩ <;>
      simp [add_variable_twice, add_variable, remove_variable,
        alookup_ainsert_self, alookup_aerase_self]
  · refine ⟨?_, ?_, ?_, ?_, ?_⟩ <;>
      simp [add_variable_twice, add_variable, remove_variable,
        alookup_ainsert_self, alookup_aerase_self]

/-! ## C5: `connect_calculations` upserts the edge keyed by the ordered pair -/
/-- C5.  For existing nodes `n₁ ≠ n₂`, connecting them twice succeeds twice
and leaves exactly one edge keyed `(n₁, n₂)`, carrying the attributes of the
second call (`DiGraph.add_edge` replaces); and under the dict invariant at
most one edge ever exists per ordered pair. -/
theorem connect_calculations_idempotent_replace (g : PayrollGraph)
    (n₁ n₂ : String) (a₁ a₂ : EdgeAttrs)
    (h₁ : n₁ ∈ nodeKeys g) (h₂ : n₂ ∈ nodeKeys g) (hne : n₁ ≠ n₂)
    (hnd : (edgePairs g).Nodup) :
    ∃ g₁ g₂,
      connect_calculations g n₁ n₂ a₁ = .ok g₁ ∧
      connect_calculations g₁ n₁ n₂ a₂ = .ok g₂ ∧
      alookup g₂.edges (n₁, n₂) = some a₂ ∧
      ((akeys g₂.edges).filter (fun q => q = (n₁, n₂))).length = 1 ∧
      (∀ p : String × String, ((akeys g₂.edges).filter (fun q => q = p)).length ≤ 1) := by
  have hs₁ : (alookup g.nodes n₁).isSome := by
    rw [alookup_isSome_iff_mem_akeys]; exact h₁
  have hs₂ : (alookup g.nodes n₂).isSome := by
    rw [alookup_isSome_iff_mem_akeys]; exact h₂
  refine ⟨{ g with edges := ainsert g.edges (n₁, n₂) a₁ },
    { g with edges := ainsert (ainsert g.edges (n₁, n₂) a₁) (n₁, n₂) a₂ },
    ?_, ?_, ?_, ?_, ?_⟩
  · simp [connect_calculations, Option.isNone_iff_eq_none]
    cases hc : alookup g.nodes n₁ with
    | none => rw [hc] at hs₁; simp at hs₁
    | some x =>
      cases hc₂ : alookup g.nodes n₂ with
      | none => rw [hc₂] at hs₂; simp at hs₂
      | some y => simp
  · simp only [connect_calculations]
    cases hc : alookup g.nodes n₁ with
    | none => rw [hc] at hs₁; simp at hs₁
    | some x =>
      cases hc₂ : alookup g.nodes n₂ with
      | none => rw [hc₂] at hs₂; simp at hs₂
      | some y => simp [hc, hc₂]
  · exact alookup_ainsert_self _ _ _
  · have hnd₂ : (akeys (ainsert (ainsert g.edges (n₁, n₂) a₁) (n₁, n₂) a₂)).Nodup :=
      akeys_ainsert_nodup _ _ _ (akeys_ainsert_nodup _ _ _ hnd)
    exact length_filter_eq_eq_one _ _ hnd₂ (mem_akeys_ainsert_self _ _ _)
  · intro p
    exact length_filter_eq_le_one _ _
      (akeys_ainsert_nodup _ _ _ (akeys_ainsert_nodup _ _ _ hnd))

theorem connect_calculations_idempotent_replace_witness :
    ("n1" ∈ nodeKeys c5Graph ∧ "n2" ∈ nodeKeys c5Graph ∧ "n1" ≠ "n2" ∧
        (edgePairs c5Graph).Nodup) ∧
      ∃ g₁ g₂,
        connect_calculations c5Graph "n1" "n2" sampleEdge₁ = .ok g₁ ∧
        connect_calculations g₁ "n1" "n2" sampleEdge₂ = .ok g₂ ∧
        alookup g₂.edges ("n1", "n2") = some sampleEdge₂ ∧
        ((akeys g₂.edges).filter (fun q => q = ("n1", "n2"))).length = 1 ∧
        (∀ p : String × String, ((akeys g₂.edges).filter (fun q => q = p)).length ≤ 1) :=
  ⟨⟨by decide, by decide, by decide, by decide⟩,
   connect_calculations_idempotent_replace c5Graph "n1" "n2"
     sampleEdge₁ sampleEdge₂ (by decide) (by decide) (by decide) (by decide)⟩

/-! ## C1: `execute_calculation` -/
/-- C1.  `execute_calculation` fails with the unknown-node error when the node
has no registered function; otherwise it fails with the missing-arguments
error reporting exactly the declared `input_variables` that are absent from
the supplied values (characterised by the membership equivalence below), and
when none is missing it invokes the bound function on the supplied values
filtered down to the function's declared parameter names and returns the raw
result — so a supplied name that is neither a parameter nor a declared input
variable never changes the outcome. -/
theorem execute_calculation_spec (g : PayrollGraph) (nodeId : String)
    (variableValues : List (String × Value)) :
    (alookup g.functionRegistry nodeId = none →
      execute_calculation g nodeId variableValues = .error (.unknownNode nodeId)) ∧
    (∀ func nodeInfo,
      alookup g.functionRegistry nodeId = some func →
      alookup g.nodes nodeId = some nodeInfo →
      (∀ v, v ∈ nodeInfo.inputVariables.filter
          (fun v => (alookup variableValues v).isNone) ↔
        (v ∈ nodeInfo.inputVariables ∧ alookup variableValues v = none)) ∧
      (nodeInfo.inputVariables.filter (fun v => (alookup variableValues v).isNone) ≠ [] →
        execute_calculation g nodeId variableValues =
          .error (.missingArguments nodeId
            (nodeInfo.inputVariables.filter (fun v => (alookup variableValues v).isNone)))) ∧
      (nodeInfo.inputVariables.filter (fun v => (alookup variableValues v).isNone) = [] →
        execute_calculation g nodeId variableValues =
          .ok (func.impl (variableValues.filter (fun kv => kv.1 ∈ func.params)))) ∧
      (∀ y w, y ∉ func.params → y ∉ nodeInfo.inputVariables →
        execute_calculation g nodeId (variableValues ++ [(y, w)]) =
          execute_calculation g nodeId variableValues)) := by
  constructor
  · intro hnone
    simp [execute_calculation, hnone]
  · intro func nodeInfo hf hn
    refine ⟨?_, ?_, ?_, ?_⟩
    · intro v
      simp [List.mem_filter, Option.isNone_iff_eq_none]
    · intro hne
      have hempty : (nodeInfo.inputVariables.filter
          (fun v => (alookup variableValues v).isNone)).isEmpty = false := by
        cases hc : nodeInfo.inputVariables.filter
            (fun v => (alookup variableValues v).isNone) with
        | nil => exact absurd hc hne
        | cons a l => simp
      simp [execute_calculation, hf, hn, hempty]
    · intro hnil
      have hempty : (nodeInfo.inputVariables.filter
          (fun v => (alookup variableValues v).isNone)).isEmpty = true := by
        rw [hnil]; rfl
      simp [execute_calculation, hf, hn, hempty]
    · intro y w hyp hyi
      have hmiss : nodeInfo.inputVariables.filter
            (fun v => (alookup (variableValues ++ [(y, w)]) v).isNone) =
          nodeInfo.inputVariables.filter
            (fun v => (alookup variableValues v).isNone) := by
        apply List.filter_congr
        intro v hv
        have hvy : ¬ y = v := fun hc => hyi (hc ▸ hv)
        rw [alookup_append]
        cases hc : alookup variableValues v with
        | some x => simp
        | none => simp [alookup, hvy]
      have hfilt : (variableValues ++ [(y, w)]).filter
            (fun kv => kv.1 ∈ func.params) =
          variableValues.filter (fun kv => kv.1 ∈ func.params) := by
        rw [List.filter_append]
        simp [hyp]
      simp only [execute_calculation, hf, hn, hmiss, hfilt]

theorem execute_calculation_spec_witness :
    execute_calculation c1Graph "n1" [("x", 1), ("y", 2)] = .ok 1 ∧
      execute_calculation c1Graph "n2" [("x", 1)] =
        .error (.missingArguments "n2" ["z"]) := by
  constructor
  · have h := ((execute_calculation_spec c1Graph "n1" [("x", 1), ("y", 2)]).2
      sampleFunction (sampleAttrs ["x"]) rfl rfl).2.2.1 (by decide)
    exact h
  · have h := ((execute_calculation_spec c1Graph "n2" [("x", 1)]).2
      sampleFunction (sampleAttrs ["x", "z"]) rfl rfl).2.1 (by decide)
    exact h

theorem posIn_append_cons (l₁ l₂ : List String) (b : String) (hb : b ∉ l₁) :
    posIn (l₁ ++ b :: l₂) b = l₁.length := by
  induction l₁ with
  | nil => simp [posIn]
  | cons x xs ih =>
    have hx : ¬ x = b := fun hc => hb (by simp [hc])
    have hxs : b ∉ xs := fun hc => hb (by simp [hc])
    simp [posIn, hx, ih hxs]

theorem posIn_append_left (l₁ l₂ : List String) (a : String) (ha : a ∈ l₁) :
    posIn (l₁ ++ l₂) a < l₁.length := by
  induction l₁ with
  | nil => simp at ha
  | cons x xs ih =>
    by_cases hx : x = a
    · simp [posIn, hx]
    · have ha₂ : a ∈ xs := by
        rcases (by simpa using ha : a = x ∨ a ∈ xs) with h | h
        · exact absurd h.symm hx
        · exact h
      simp only [List.cons_append, posIn, hx, if_false, List.length_cons]
      exact Nat.succ_lt_succ (ih ha₂)

/-- Success characterisation of the Kahn loop: the output extends the
accumulator by an ordering of the remaining nodes in which the target of any
edge is preceded by its source unless the source was never remaining. -/
theorem topoAux_ok_spec (E : List (String × String)) :
    ∀ (fuel : Nat) (rem acc out : List String), rem.length ≤ fuel →
      topoAux E fuel rem acc = .ok out →
      ∃ tail, out = acc ++ tail ∧ tail.Perm rem ∧
        (∀ e ∈ E, ∀ l₁ l₂, tail = l₁ ++ e.2 :: l₂ → e.1 ∈ l₁ ∨ e.1 ∉ rem) := by
  intro fuel
  induction fuel with
  | zero =>
    intro rem acc out hlen h
    have hrem : rem = [] := List.length_eq_zero.mp (Nat.le_zero.mp hlen)
    subst hrem
    simp only [topoAux, List.isEmpty_nil, if_true] at h
    refine ⟨[], ?_, List.Perm.refl _, ?_⟩
    · simpa using (Except.ok.injEq _ _).mp h |>.symm
    · intro e he l₁ l₂ hsplit
      exact absurd hsplit.symm (List.append_ne_nil_of_right_ne_nil _ (List.cons_ne_nil _ _))
  | succ fuel ih =>
    intro rem acc out hlen h
    cases hfind : rem.find? (zeroInDegree E rem) with
    | some v =>
      simp only [topoAux, hfind] at h
      have hv : v ∈ rem := List.mem_of_find?_eq_some hfind
      have hzero : zeroInDegree E rem v = true := List.find?_some hfind
      have hz : ∀ e ∈ E, e.2 = v → e.1 ∉ rem := by
        simp only [zeroInDegree] at hzero
        exact of_decide_eq_true hzero
      have hlen₂ : (rem.erase v).length ≤ fuel := by
        have h₁ := List.length_erase_of_mem hv
        have h₂ : 0 < rem.length := List.length_pos.mpr (List.ne_nil_of_mem hv)
        omega
      obtain ⟨tail, hout, hperm, hresp⟩ := ih (rem.erase v) (acc ++ [v]) out hlen₂ h
      refine ⟨v :: tail, ?_, ?_, ?_⟩
      · rw [hout]; simp
      · exact (hperm.cons v).trans (List.perm_cons_erase hv).symm
      · intro e he l₁ l₂ hsplit
        cases l₁ with
        | nil =>
          simp only [List.nil_append] at hsplit
          have h₁ : e.2 = v := (List.cons.injEq _ _ _ _ |>.mp hsplit).1.symm
          exact Or.inr (hz e he h₁)
        | cons a l₁ =>
          have hsp := List.cons.injEq _ _ _ _ |>.mp (by simpa using hsplit)
          have hva : v = a := hsp.1
          have htail : tail = l₁ ++ e.2 :: l₂ := hsp.2
          rcases hresp e he l₁ l₂ htail with hmem | hnot
          · exact Or.inl (List.mem_cons_of_mem _ hmem)
          · by_cases hev : e.1 = v
            · exact Or.inl (by simp [hev, hva])
            · refine Or.inr fun hin => hnot ?_
              exact (List.mem_erase_of_ne hev).mpr hin
    | none =>
      simp only [topoAux, hfind] at h
      by_cases hemp : rem.isEmpty
      · have hrem : rem = [] := List.isEmpty_iff.mp hemp
        subst hrem
        simp only [List.isEmpty_nil, if_true] at h
        refine ⟨[], ?_, List.Perm.refl _, ?_⟩
        · simpa using (Except.ok.injEq _ _).mp h |>.symm
        · intro e he l₁ l₂ hsplit
          exact absurd hsplit.symm
            (List.append_ne_nil_of_right_ne_nil _ (List.cons_ne_nil _ _))
      · simp [hemp] at h

/-- Failure characterisation of the Kahn loop: the only raised exception is
`NetworkXUnfeasible`, and on failure there was a nonempty set of nodes each of
which still had an incoming edge from inside the set. -/
theorem topoAux_error_spec (E : List (String × String)) :
    ∀ (fuel : Nat) (rem acc : List String) (err : NxException), rem.length ≤ fuel →
      topoAux E fuel rem acc = .error err →
      err = .networkXUnfeasible ∧
        ∃ S : List String, S ≠ [] ∧ ∀ v ∈ S, ∃ e ∈ E, e.2 = v ∧ e.1 ∈ S := by
  intro fuel
  induction fuel with
  | zero =>
    intro rem acc err hlen h
    have hrem : rem = [] := List.length_eq_zero.mp (Nat.le_zero.mp hlen)
    subst hrem
    simp [topoAux] at h
  | succ fuel ih =>
    intro rem acc err hlen h
    cases hfind : rem.find? (zeroInDegree E rem) with
    | some v =>
      simp only [topoAux, hfind] at h
      have hv : v ∈ rem := List.mem_of_find?_eq_some hfind
      have hlen₂ : (rem.erase v).length ≤ fuel := by
        have h₁ := List.length_erase_of_mem hv
        have h₂ : 0 < rem.length := List.length_pos.mpr (List.ne_nil_of_mem hv)
        omega
      exact ih (rem.erase v) (acc ++ [v]) err hlen₂ h
    | none =>
      simp only [topoAux, hfind] at h
      by_cases hemp : rem.isEmpty
      · simp [hemp] at h
      · simp only [hemp, if_false] at h
        have herr : err = .networkXUnfeasible :=
          ((Except.error.injEq _ _).mp h).symm
        refine ⟨herr, rem, ?_, ?_⟩
        · intro hc
          subst hc
          simp at hemp
        · intro v hv
          have hnot := List.find?_eq_none.mp hfind v hv
          have hfalse : ¬ (∀ e ∈ E, e.2 = v → e.1 ∉ rem) := by
            intro hall
            exact hnot (by simpa [zeroInDegree] using decide_eq_true hall)
          push_neg at hfalse
          obtain ⟨e, heE, he2, he1⟩ := hfalse
          exact ⟨e, heE, he2, he1⟩

/-- If every node of a nonempty set has an incoming edge from inside the set,
the edge list contains a cycle (follow predecessors; by pigeonhole two
iterates coincide, and the segment between them is a closed walk). -/
theorem cycle_of_stuck (E : List (String × String)) (S : List String) (hne : S ≠ [])
    (hpred : ∀ v ∈ S, ∃ e ∈ E, e.2 = v ∧ e.1 ∈ S) :
    ∃ v, Relation.TransGen (fun a b => (a, b) ∈ E) v v := by
  have hstep : ∀ v ∈ S, stuckPred E S v ∈ S ∧ (stuckPred E S v, v) ∈ E := by
    intro v hv
    obtain ⟨e, heE, he2, he1⟩ := hpred v hv
    have hev : (e.1, v) = e := by rw [← he2]
    cases hfind : S.find? (fun u => decide ((u, v) ∈ E)) with
    | some u =>
      refine ⟨?_, ?_⟩
      · have hmem := List.mem_of_find?_eq_some hfind
        simpa [stuckPred, hfind] using hmem
      · have hu : (u, v) ∈ E := by simpa using List.find?_some hfind
        simpa [stuckPred, hfind] using hu
    | none =>
      exfalso
      exact List.find?_eq_none.mp hfind e.1 he1 (decide_eq_true (hev ▸ heE))
  obtain ⟨v₀, hv₀⟩ := List.exists_mem_of_ne_nil S hne
  have hitS : ∀ k : Nat, (stuckPred E S)^[k] v₀ ∈ S := by
    intro k
    induction k with
    | zero => simpa using hv₀
    | succ k ihk =>
      rw [Function.iterate_succ_apply']
      exact (hstep _ ihk).1
  have hchain : ∀ (i k : Nat),
      Relation.TransGen (fun a b => (a, b) ∈ E)
        ((stuckPred E S)^[i + (k + 1)] v₀) ((stuckPred E S)^[i] v₀) := by
    intro i k
    induction k with
    | zero =>
      have hone := (hstep _ (hitS i)).2
      have heq : i + (0 + 1) = i + 1 := by omega
      rw [heq, Function.iterate_succ_apply']
      exact Relation.TransGen.single hone
    | succ k ihk =>
      have hone := (hstep _ (hitS (i + (k + 1)))).2
      have heq : i + (k + 1 + 1) = (i + (k + 1)) + 1 := by omega
      rw [heq, Function.iterate_succ_apply']
      exact Relation.TransGen.head hone ihk
  have hcard : S.toFinset.card < (Finset.univ : Finset (Fin (S.length + 1))).card := by
    simpa using Nat.lt_succ_of_le S.toFinset_card_le
  have hmaps : ∀ k ∈ (Finset.univ : Finset (Fin (S.length + 1))),
      (stuckPred E S)^[k.val] v₀ ∈ S.toFinset :=
    fun k _ => List.mem_toFinset.mpr (hitS k.val)
  obtain ⟨k₁, -, k₂, -, hkne, hkeq⟩ :=
    Finset.exists_ne_map_eq_of_card_lt_of_maps_to hcard hmaps
  rcases Nat.lt_or_ge k₁.val k₂.val with hlt | hge
  · obtain ⟨d, hd⟩ : ∃ d, k₂.val = k₁.val + (d + 1) := ⟨k₂.val - k₁.val - 1, by omega⟩
    refine ⟨(stuckPred E S)^[k₁.val] v₀, ?_⟩
    have hc := hchain k₁.val d
    rw [← hd] at hc
    rw [← hkeq] at hc
    exact hc
  · have hlt₂ : k₂.val < k₁.val := by
      rcases Nat.eq_or_lt_of_le hge with h | h
      · exact absurd (Fin.ext h.symm) hkne
      · exact h
    obtain ⟨d, hd⟩ : ∃ d, k₁.val = k₂.val + (d + 1) := ⟨k₁.val - k₂.val - 1, by omega⟩
    refine ⟨(stuckPred E S)^[k₂.val] v₀, ?_⟩
    have hc := hchain k₂.val d
    rw [← hd] at hc
    rw [hkeq] at hc
    exact hc

/-- A successful topological sort is a permutation of the node set. -/
theorem nx_topological_sort_ok_perm (g : PayrollGraph) (out : List String)
    (h : nx_topological_sort g = .ok out) : out.Perm (nodeKeys g) := by
  obtain ⟨tail, hout, hperm, -⟩ :=
    topoAux_ok_spec (edgePairs g) (nodeKeys g).length (nodeKeys g) [] out
      (Nat.le_refl _) h
  simpa [hout] using hperm

/-- A successful topological sort puts the source of every edge strictly
before its target. -/
theorem nx_topological_sort_ok_strict (g : PayrollGraph) (hwf : g.Wf)
    (out : List String) (h : nx_topological_sort g = .ok out) :
    ∀ e ∈ edgePairs g, posIn out e.1 < posIn out e.2 := by
  obtain ⟨tail, hout, hperm, hresp⟩ :=
    topoAux_ok_spec (edgePairs g) (nodeKeys g).length (nodeKeys g) [] out
      (Nat.le_refl _) h
  have hout₂ : out = tail := by simpa using hout
  subst hout₂
  intro e he
  have hnd : out.Nodup := (hperm.nodup_iff).mpr hwf.nodesNodup
  have he2mem : e.2 ∈ out := hperm.mem_iff.mpr (hwf.edgesValid e he).2
  obtain ⟨l₁, l₂, hsplit⟩ := List.append_of_mem he2mem
  have h21 : e.2 ∉ l₁ := by
    rw [hsplit] at hnd
    have hd := (List.nodup_append.mp hnd).2.2
    exact fun hc => hd hc (by simp)
  rcases hresp e he l₁ l₂ hsplit with h1mem | h1not
  · rw [hsplit]
    have hlt := posIn_append_left l₁ (e.2 :: l₂) e.1 h1mem
    have heq := posIn_append_cons l₁ l₂ e.2 h21
    omega
  · exact absurd ((hwf.edgesValid e he).1) h1not

/-- A cycle contradicts any edge-respecting linear position. -/
theorem transGen_posIn_lt (g : PayrollGraph) (out : List String)
    (hstrict : ∀ e ∈ edgePairs g, posIn out e.1 < posIn out e.2) :
    ∀ a b, Relation.TransGen (edgeRel g) a b → posIn out a < posIn out b := by
  intro a b h
  induction h with
  | single h₁ => exact hstrict _ h₁
  | tail hab hbc ih => exact lt_trans ih (hstrict _ hbc)

/-- A failing topological sort raises exactly `NetworkXUnfeasible`, and only
when the graph store contains a cycle. -/
theorem nx_topological_sort_error_spec (g : PayrollGraph) (err : NxException)
    (h : nx_topological_sort g = .error err) :
    err = .networkXUnfeasible ∧ hasCycle g := by
  obtain ⟨herr, S, hSne, hSpred⟩ :=
    topoAux_error_spec (edgePairs g) (nodeKeys g).length (nodeKeys g) [] err
      (Nat.le_refl _) h
  exact ⟨herr, cycle_of_stuck (edgePairs g) S hSne hSpred⟩

theorem c3CycleGraph_wf : c3CycleGraph.Wf :=
  ⟨by decide, by decide, by decide⟩

theorem c3CycleGraph_hasCycle : hasCycle c3CycleGraph := by
  refine ⟨"A", ?_⟩
  have hAB : edgeRel c3CycleGraph "A" "B" := by
    show ("A", "B") ∈ edgePairs c3CycleGraph
    decide
  have hBC : edgeRel c3CycleGraph "B" "C" := by
    show ("B", "C") ∈ edgePairs c3CycleGraph
    decide
  have hCA : edgeRel c3CycleGraph "C" "A" := by
    show ("C", "A") ∈ edgePairs c3CycleGraph
    decide
  exact Relation.TransGen.tail (Relation.TransGen.tail
    (Relation.TransGen.single hAB) hBC) hCA

/-- C3.  On the cyclic graph `A→B→C→A`, the topological sort raises
`NetworkXUnfeasible`, which the `except nx.NetworkXError` clause of section 4D
does **not** catch — `dependency_analysis` propagates the exception instead of
producing the caught-error analysis line, so the cycle is an unhandled crash
of `to_llm_readable_text`, contradicting the claim's "reported analysis
error".  The rest of the claim is accurate and proved in general: for every
well-formed graph state, the sort raises `NetworkXUnfeasible` exactly when the
graph store contains a cycle (and the exception always escapes the handler),
and on an acyclic graph it returns an ordering of all nodes in which every
edge points from an earlier node to a later one. -/
theorem dependency_analysis_cycle_bug :
    dependency_analysis c3CycleGraph = .error .networkXUnfeasible ∧
      hasCycle c3CycleGraph ∧
      (∀ g : PayrollGraph, g.Wf →
        ((hasCycle g ↔ nx_topological_sort g = .error .networkXUnfeasible) ∧
         (hasCycle g → dependency_analysis g = .error .networkXUnfeasible) ∧
         (∀ out, nx_topological_sort g = .ok out →
           out.Perm (nodeKeys g) ∧
             ∀ e ∈ edgePairs g, posIn out e.1 < posIn out e.2))) := by
  have hgen : ∀ g : PayrollGraph, g.Wf →
      ((hasCycle g ↔ nx_topological_sort g = .error .networkXUnfeasible) ∧
       (hasCycle g → dependency_analysis g = .error .networkXUnfeasible) ∧
       (∀ out, nx_topological_sort g = .ok out →
         out.Perm (nodeKeys g) ∧
           ∀ e ∈ edgePairs g, posIn out e.1 < posIn out e.2)) := by
    intro g hwf
    have hiff : hasCycle g ↔ nx_topological_sort g = .error .networkXUnfeasible := by
      constructor
      · intro hcyc
        cases hres : nx_topological_sort g with
        | ok out =>
          exfalso
          obtain ⟨v, hv⟩ := hcyc
          have hstrict := nx_topological_sort_ok_strict g hwf out hres
          exact absurd (transGen_posIn_lt g out hstrict v v hv) (lt_irrefl _)
        | error err =>
          rw [(nx_topological_sort_error_spec g err hres).1]
      · intro herr
        exact (nx_topological_sort_error_spec g _ herr).2
    refine ⟨hiff, ?_, ?_⟩
    · intro hcyc
      have herr := hiff.mp hcyc
      simp [dependency_analysis, herr]
    · intro out hok
      exact ⟨nx_topological_sort_ok_perm g out hok,
        nx_topological_sort_ok_strict g hwf out hok⟩
  refine ⟨?_, c3CycleGraph_hasCycle, hgen⟩
  exact (hgen c3CycleGraph c3CycleGraph_wf).2.1 c3CycleGraph_hasCycle

/-! ## C6: `remove_calculation_node` removes the node and its incident edges -/
/-- C6.  Removing a present node returns `True`, removes the node and every
edge incident to it (as source or target), so that any subsequent successful
topological sort mentions neither the node nor any edge touching it; removing
an absent node returns `False` and leaves the state untouched. -/
theorem remove_calculation_node_spec (g : PayrollGraph) (n : String) :
    (n ∈ nodeKeys g →
      (remove_calculation_node g n).1 = true ∧
      n ∉ nodeKeys (remove_calculation_node g n).2 ∧
      (∀ e ∈ edgePairs (remove_calculation_node g n).2, e.1 ≠ n ∧ e.2 ≠ n) ∧
      (∀ out, nx_topological_sort (remove_calculation_node g n).2 = .ok out →
        n ∉ out)) ∧
    (n ∉ nodeKeys g → remove_calculation_node g n = (false, g)) := by
  constructor
  · intro hmem
    have hsome : (alookup g.nodes n).isSome :=
      (alookup_isSome_iff_mem_akeys _ _).mpr hmem
    have hnotnone : (alookup g.nodes n).isNone = false := by
      cases hc : alookup g.nodes n
      · rw [hc] at hsome; simp at hsome
      · simp
    have hres : remove_calculation_node g n =
        (true,
         { nodes := aerase g.nodes n,
           edges := g.edges.filter (fun e => ¬ (e.1.1 = n ∨ e.1.2 = n)),
           functionRegistry := aerase g.functionRegistry n }) := by
      simp [remove_calculation_node, hnotnone]
    have hnodes : n ∉ nodeKeys (remove_calculation_node g n).2 := by
      rw [hres]
      exact (alookup_eq_none_iff_not_mem_akeys _ _).mp (alookup_aerase_self _ _)
    refine ⟨by rw [hres], hnodes, ?_, ?_⟩
    · intro e he
      rw [hres] at he
      obtain ⟨kv, hkv, hfst⟩ := List.mem_map.mp he
      have hprop : ¬ (kv.1.1 = n ∨ kv.1.2 = n) :=
        of_decide_eq_true (List.mem_filter.mp hkv).2
      rw [← hfst]
      exact ⟨fun hc => hprop (Or.inl hc), fun hc => hprop (Or.inr hc)⟩
    · intro out hok
      have hperm := nx_topological_sort_ok_perm _ out hok
      exact fun hc => hnodes (hperm.mem_iff.mp hc)
  · intro hnot
    have hnone : alookup g.nodes n = none :=
      (alookup_eq_none_iff_not_mem_akeys _ _).mpr hnot
    simp [remove_calculation_node, hnone]

theorem remove_calculation_node_spec_witness :
    "n1" ∈ nodeKeys c6Graph ∧
      (remove_calculation_node c6Graph "n1").1 = true ∧
      "n1" ∉ nodeKeys (remove_calculation_node c6Graph "n1").2 ∧
      (∀ e ∈ edgePairs (remove_calculation_node c6Graph "n1").2,
        e.1 ≠ "n1" ∧ e.2 ≠ "n1") :=
  ⟨by decide,
   ((remove_calculation_node_spec c6Graph "n1").1 (by decide)).1,
   ((remove_calculation_node_spec c6Graph "n1").1 (by decide)).2.1,
   ((remove_calculation_node_spec c6Graph "n1").1 (by decide)).2.2.1⟩

end Payflow
